import Mathlib

/-!
Verification of the Test Partitioning Engine of `distributed_nose`
(`src/distributed_nose/plugin.py`), a nose plugin distributing a test
suite over N shared-nothing worker nodes.

Shallow embedding notes:
* Durations (Python floats read from JSON) are modelled as exact
  rationals `ℚ`; the claims under study are about algorithm structure,
  not rounding.
* `DurationRecord` / `self.lpt_data` is modelled as an association list
  `List (String × ℚ)` in the iteration order of the Python dict
  (`dict.items()` yields insertion order, i.e. the order of the JSON
  file).
* Python's three-valued callback results `True` / `False` / `None`
  become `Option Bool`: `some true` = include, `some false` = exclude,
  `none` = defer to the host framework.
* The consistent-hash ring (`hash_ring.HashRing`) is an external
  collaborator; its `get_node` is an opaque parameter `ring : String → Nat`
  of the plugin state.
-/

namespace DistributedNose

/-- `plugin.py` line 19: `ALGORITHM_HASH_RING = 0`. -/
def ALGORITHM_HASH_RING : Nat := 0

/-- `plugin.py` line 20: `ALGORITHM_LEAST_PROCESSING_TIME = 1`. -/
def ALGORITHM_LEAST_PROCESSING_TIME : Nat := 1

/-- One entry of `self.lpt_nodes`: the dict
`{'processing_time': 0, 'objects': set()}` (lines 146-149).
The object set is modelled as the list of keys added, newest first;
only membership is observed. -/
structure Bucket where
  processing_time : ℚ
  objects : List String
deriving DecidableEq, Repr

/-- The empty bucket `{'processing_time': 0, 'objects': set()}`. -/
def emptyBucket : Bucket := ⟨0, []⟩

/-- `self.lpt_nodes` right after lines 145-151: `node_count + 1` empty
buckets, the 0th a dummy so that the real nodes are 1-indexed. -/
def initialNodes (node_count : Nat) : List Bucket :=
  List.replicate (node_count + 1) emptyBucket

/-- Index and processing time of the first bucket attaining the minimal
`processing_time`, as computed by Python's
`min(..., key=lambda n: n['processing_time'])` (lines 160-163), which
keeps the first of several minimal elements. -/
def firstMin : List Bucket → Nat × ℚ
  | [] => (0, 0)
  | [b] => (0, b.processing_time)
  | b :: c :: t =>
    let p := firstMin (c :: t)
    if b.processing_time ≤ p.2 then (0, b.processing_time) else (p.1 + 1, p.2)

/-- The processing time of the bucket at index `i` of `nodes`
(`self.lpt_nodes[i]['processing_time']`). -/
def bucketTime (nodes : List Bucket) (i : Nat) : ℚ :=
  ((nodes.get? i).getD emptyBucket).processing_time

/-- The object set of the bucket at index `i` of `nodes`
(`self.lpt_nodes[i]['objects']`). -/
def bucketObjs (nodes : List Bucket) (i : Nat) : List String :=
  ((nodes.get? i).getD emptyBucket).objects

/-- The index into `self.lpt_nodes` of the bucket Python's
`min(self.lpt_nodes[1:], key=lambda n: n['processing_time'])` returns:
`1 +` the index of the first minimum of the slice dropping the dummy. -/
def chosenNode (nodes : List Bucket) : Nat :=
  1 + (firstMin (nodes.drop 1)).1

/-- One iteration of the loop at lines 159-165: pick the bucket
`min(self.lpt_nodes[1:], ...)` and mutate it in place, adding the
duration to its total and the key to its object set. -/
def lptStep (nodes : List Bucket) (p : String × ℚ) : List Bucket :=
  match nodes.get? (chosenNode nodes) with
  | none => nodes
  | some b => nodes.set (chosenNode nodes) ⟨b.processing_time + p.2, p.1 :: b.objects⟩

/-- Stable insertion used to model
`sorted(self.lpt_data.items(), key=lambda t: t[1]['duration'], reverse=True)`
(lines 153-157): `x` is placed before the first element whose duration
is `≤` its own, so earlier input entries with equal duration stay in
front. -/
def insertByDuration (x : String × ℚ) : List (String × ℚ) → List (String × ℚ)
  | [] => [x]
  | y :: l => if y.2 ≤ x.2 then x :: y :: l else y :: insertByDuration x l

/-- `sorted_lpt_data` (lines 153-157): Python's `sorted` is stable, so
the result is the unique non-increasing-by-duration reordering that
keeps tied entries in input order. -/
def sortedLptData (data : List (String × ℚ)) : List (String × ℚ) :=
  data.foldr insertByDuration []

/-- The whole LPT build of `configure` (lines 145-165): allocate
`node_count + 1` empty buckets and greedily assign each pair of the
sorted duration data. -/
def lptBuild (node_count : Nat) (data : List (String × ℚ)) : List Bucket :=
  (sortedLptData data).foldl lptStep (initialNodes node_count)

/-- All keys assigned to some bucket, with multiplicity. -/
def allObjects (nodes : List Bucket) : List String :=
  (nodes.map Bucket.objects).flatten

/-! Membership resolver (`validateName`, `wantClass`, `wantMethod`,
`wantFunction`, lines 214-272).

The plugin state after a successful `configure`.  `ring` stands for
`self.hash_ring.get_node`, an external collaborator.  `lpt_data_keys`
models key membership in the dict `self.lpt_data`, and
`lpt_node_objects` models `self.lpt_nodes[self.node_id]['objects']`. -/

structure PluginState where
  node_id : Nat
  hash_by_class : Bool
  algorithm : Nat
  lpt_data_keys : List String
  lpt_node_objects : List String
  ring : String → Nat

/-- Replace the algorithm field; used to compare the LPT fallback with
the pure hash-ring configuration. -/
def PluginState.withAlgorithm (st : PluginState) (a : Nat) : PluginState :=
  ⟨st.node_id, st.hash_by_class, a, st.lpt_data_keys, st.lpt_node_objects, st.ring⟩

/-- A bound test method as the resolver sees it: defining module, class
name (`method.im_class.__name__`) and method name. -/
structure MethodItem where
  module : String
  cls : String
  name : String

/-- A test class: defining module, class name, and the opaque string
`str(cls)` used as the hash-ring key. -/
structure ClassItem where
  module : String
  name : String
  str_repr : String

/-- A bare test function: defining module and name. -/
structure FunctionItem where
  module : String
  name : String

/-- `'{}.{}.{}'.format(method.__module__, method.im_class.__name__, method.__name__)`
(line 261). -/
def methodFullName (m : MethodItem) : String :=
  m.module ++ "." ++ (m.cls ++ "." ++ m.name)

/-- The `call` part `nose.util.test_address` yields for a bound method:
`"<class>.<method>"`. -/
def methodCall (m : MethodItem) : String :=
  m.cls ++ "." ++ m.name

/-- `'{}.{}'.format(cls.__module__, cls.__name__)` (lines 237-240). -/
def namespacedClass (c : ClassItem) : String :=
  c.module ++ "." ++ c.name

/-- `validateName` (lines 214-225): hash `"<module>.<call>"` on the ring
and exclude (`False`) when it lands on another node, else defer
(`None`).  `module` and `call` come from `nose.util.test_address`, an
external collaborator. -/
def validateName (st : PluginState) (module call : String) : Option Bool :=
  if st.ring (module ++ "." ++ call) ≠ st.node_id then some false
  else none

/-- `wantClass` (lines 227-255). -/
def wantClass (st : PluginState) (c : ClassItem) : Option Bool :=
  if st.hash_by_class = false then none
  else if st.algorithm = ALGORITHM_HASH_RING then
    if st.ring c.str_repr ≠ st.node_id then some false else none
  else if st.algorithm = ALGORITHM_LEAST_PROCESSING_TIME ∧ st.hash_by_class = true then
    if namespacedClass c ∈ st.lpt_data_keys then
      some (decide (namespacedClass c ∈ st.lpt_node_objects))
    else if st.ring c.str_repr ≠ st.node_id then some false
    else none
  else none

/-- `wantMethod` (lines 257-268).  Note the fall-through: when the LPT
branch does not return, control reaches `return self.validateName(method)`. -/
def wantMethod (st : PluginState) (m : MethodItem) : Option Bool :=
  if st.hash_by_class then none
  else if st.algorithm = ALGORITHM_LEAST_PROCESSING_TIME ∧ st.hash_by_class = false then
    if methodFullName m ∈ st.lpt_data_keys then
      some (decide (methodFullName m ∈ st.lpt_node_objects))
    else if st.ring (methodFullName m) ≠ st.node_id then some false
    else validateName st m.module (methodCall m)
  else validateName st m.module (methodCall m)

/-- `wantFunction` (lines 270-272): always operate directly on the bare
function; for a function `test_address` yields `call = name`. -/
def wantFunction (st : PluginState) (f : FunctionItem) : Option Bool :=
  validateName st f.module f.name

/-! Configuration (`configure` lines 112-184, `_options_are_valid`
lines 186-212).

`int(raw)` either produces an integer or raises `ValueError`; a raw
option value is therefore modelled by its parse result `Option Int`.
The duration-data file is modelled by the observable outcomes of
`open`/`json.load`/field access. -/

/-- The duration-data source behind `--lpt-data`:
`unreadable` models `open` raising `IOError`, `unparseable` models
`json.load` raising `ValueError`, and `parsed entries` a successfully
decoded mapping in which an entry's duration field may be missing
(`none`), making `t[1]['duration']` raise `KeyError`. -/
inductive DataSource where
  | unreadable : DataSource
  | unparseable : DataSource
  | parsed : List (String × Option ℚ) → DataSource
deriving DecidableEq

/-- The exceptions `configure` can propagate out of the LPT block. -/
inductive ConfigError where
  | assertionError : ConfigError
  | ioError : ConfigError
  | valueError : ConfigError
  | keyError : ConfigError
deriving DecidableEq, Repr

/-- The raw option record handed to `configure`: parse results of
`--nodes` and `--node-number`, the two boolean flags, the algorithm
constant, and the duration-data source (`none` models a falsy
`--lpt-data` path, which trips the `assert` at line 133). -/
structure RawOptions where
  distributed_nodes : Option Int
  distributed_node_number : Option Int
  distributed_disabled : Bool
  distributed_hash_by_class : Bool
  algorithm : Nat
  lpt_source : Option DataSource
deriving DecidableEq

/-- The observable outcome of a `configure` call that returned. -/
structure ConfigResult where
  enabled : Bool
  lpt_nodes : Option (List Bucket)
deriving DecidableEq, Repr

/-- `_options_are_valid` (lines 186-212): both raw values must parse as
integers, then `node_id > node_count` and `node_id < 1` are rejected in
that order. -/
def optionsAreValid (o : RawOptions) : Bool :=
  match o.distributed_nodes with
  | none => false
  | some node_count =>
    match o.distributed_node_number with
    | none => false
    | some node_id =>
      if node_id > node_count then false
      else if node_id < 1 then false
      else true

/-- Extract the durations of a parsed mapping; the first entry whose
`'duration'` field is missing raises `KeyError` (inside the `sorted`
key function, line 155). -/
def loadDurations : List (String × Option ℚ) → Except ConfigError (List (String × ℚ))
  | [] => Except.ok []
  | (k, some d) :: rest => (loadDurations rest).map (fun l => (k, d) :: l)
  | (_, none) :: _ => Except.error ConfigError.keyError

/-- `configure` (lines 112-184).  Invalid options and the disable flag
return early with the plugin disabled (`self.enabled` stays `False`
from `__init__`); `self.enabled` becomes `True` only when
`node_count > 1`; under the LPT algorithm a missing data path trips the
`assert` and every data failure re-raises after logging. -/
def configure (o : RawOptions) : Except ConfigError ConfigResult :=
  if optionsAreValid o = false then Except.ok ⟨false, none⟩
  else if o.distributed_disabled then Except.ok ⟨false, none⟩
  else if o.algorithm = ALGORITHM_LEAST_PROCESSING_TIME then
    match o.lpt_source with
    | none => Except.error ConfigError.assertionError
    | some DataSource.unreadable => Except.error ConfigError.ioError
    | some DataSource.unparseable => Except.error ConfigError.valueError
    | some (DataSource.parsed entries) =>
      match loadDurations entries with
      | Except.error e => Except.error e
      | Except.ok data =>
        Except.ok ⟨decide (1 < o.distributed_nodes.getD 1),
          some (lptBuild (o.distributed_nodes.getD 1).toNat data)⟩
  else Except.ok ⟨decide (1 < o.distributed_nodes.getD 1), none⟩

/-! Lemmas about the stable descending sort `sortedLptData`. -/

lemma insertByDuration_perm (x : String × ℚ) (l : List (String × ℚ)) :
    (insertByDuration x l).Perm (x :: l) := by
  induction l with
  | nil => simp [insertByDuration]
  | cons y l ih =>
    by_cases h : y.2 ≤ x.2
    · simp [insertByDuration, h]
    · simp only [insertByDuration, if_neg h]
      exact (ih.cons y).trans (List.Perm.swap x y l)

lemma sortedLptData_cons (p : String × ℚ) (l : List (String × ℚ)) :
    sortedLptData (p :: l) = insertByDuration p (sortedLptData l) := rfl

lemma sortedLptData_perm (data : List (String × ℚ)) :
    (sortedLptData data).Perm data := by
  induction data with
  | nil => simp [sortedLptData]
  | cons p l ih =>
    rw [sortedLptData_cons]
    exact (insertByDuration_perm p (sortedLptData l)).trans (ih.cons p)

lemma insertByDuration_pairwise (x : String × ℚ) (l : List (String × ℚ))
    (hl : l.Pairwise (fun a b => b.2 ≤ a.2)) :
    (insertByDuration x l).Pairwise (fun a b => b.2 ≤ a.2) := by
  induction l with
  | nil => simp [insertByDuration]
  | cons y l ih =>
    rcases List.pairwise_cons.mp hl with ⟨hy, hl'⟩
    by_cases h : y.2 ≤ x.2
    · simp only [insertByDuration, if_pos h]
      refine List.pairwise_cons.mpr ⟨?_, hl⟩
      intro b hb
      rcases List.mem_cons.mp hb with rfl | hb
      · exact h
      · exact le_trans (hy b hb) h
    · simp only [insertByDuration, if_neg h]
      refine List.pairwise_cons.mpr ⟨?_, ih hl'⟩
      intro b hb
      rcases List.mem_cons.mp ((insertByDuration_perm x l).mem_iff.mp hb) with rfl | hb
      · exact le_of_lt (lt_of_not_le h)
      · exact hy b hb

lemma sortedLptData_pairwise (data : List (String × ℚ)) :
    (sortedLptData data).Pairwise (fun a b => b.2 ≤ a.2) := by
  induction data with
  | nil => simp [sortedLptData]
  | cons p l ih => exact insertByDuration_pairwise p (sortedLptData l) ih

lemma insertByDuration_filter_eq (x : String × ℚ) (l : List (String × ℚ)) (d : ℚ)
    (hx : x.2 = d) :
    (insertByDuration x l).filter (fun p => decide (p.2 = d)) =
      x :: l.filter (fun p => decide (p.2 = d)) := by
  induction l with
  | nil => simp [insertByDuration, hx]
  | cons y l ih =>
    by_cases h : y.2 ≤ x.2
    · rw [show insertByDuration x (y :: l) = x :: y :: l from by
        simp [insertByDuration, h]]
      simp [List.filter_cons, hx]
    · have hy : ¬ (y.2 = d) := fun e => h (by rw [e, ← hx])
      rw [show insertByDuration x (y :: l) = y :: insertByDuration x l from by
        simp [insertByDuration, h]]
      simp [List.filter_cons, hy, ih]

lemma insertByDuration_filter_ne (x : String × ℚ) (l : List (String × ℚ)) (d : ℚ)
    (hx : ¬ (x.2 = d)) :
    (insertByDuration x l).filter (fun p => decide (p.2 = d)) =
      l.filter (fun p => decide (p.2 = d)) := by
  induction l with
  | nil => simp [insertByDuration, hx]
  | cons y l ih =>
    by_cases h : y.2 ≤ x.2
    · simp [insertByDuration, h, List.filter_cons, hx]
    · simp [insertByDuration, h, List.filter_cons, ih]

lemma sortedLptData_filter (data : List (String × ℚ)) (d : ℚ) :
    (sortedLptData data).filter (fun p => decide (p.2 = d)) =
      data.filter (fun p => decide (p.2 = d)) := by
  induction data with
  | nil => simp [sortedLptData]
  | cons p l ih =>
    rw [sortedLptData_cons]
    by_cases h : p.2 = d
    · rw [insertByDuration_filter_eq p _ d h, ih, List.filter_cons, if_pos (by simpa)]
    · rw [insertByDuration_filter_ne p _ d h, ih, List.filter_cons, if_neg (by simpa)]

/-- Claim C2, counterexample: the sort at lines 153-157 is Python's
stable `sorted`, so ties in duration keep the iteration order of
`self.lpt_data.items()`.  The records `[(b,6),(c,6)]` and
`[(c,6),(b,6)]` hold the same key-duration pairs (they are permutations
of one another), yet the sorted sequences and the resulting assignment
tables differ. -/
theorem sortedLptData_order_dependent :
    ([(("b" : String), (6 : ℚ)), ("c", 6)]).Perm [("c", 6), ("b", 6)] ∧
    (sortedLptData [("b", 6), ("c", 6)]).map Prod.fst ≠
      (sortedLptData [("c", 6), ("b", 6)]).map Prod.fst ∧
    bucketObjs (lptBuild 2 [("b", 6), ("c", 6)]) 1 ≠
      bucketObjs (lptBuild 2 [("c", 6), ("b", 6)]) 1 := by
  refine ⟨List.Perm.swap _ _ _, ?_, ?_⟩ <;>
    norm_num [sortedLptData, insertByDuration, lptBuild, lptStep, chosenNode,
      firstMin, initialNodes, emptyBucket, bucketTime, bucketObjs]
  all_goals decide

/-- Claim C2, amended: the sort of the (key, duration) pairs is the
stable descending sort: the result is a permutation of the record,
non-increasing in duration, and entries with equal duration appear in
the iteration order in which the record presents them (so the result
depends on that iteration order, not on a total order over keys). -/
theorem sortedLptData_stable_descending (data : List (String × ℚ)) :
    (sortedLptData data).Perm data ∧
    (sortedLptData data).Pairwise (fun a b => b.2 ≤ a.2) ∧
    ∀ d : ℚ, (sortedLptData data).filter (fun p => decide (p.2 = d)) =
      data.filter (fun p => decide (p.2 = d)) :=
  ⟨sortedLptData_perm data, sortedLptData_pairwise data, sortedLptData_filter data⟩

/-! Lemmas about `firstMin`, the model of Python's
`min(..., key=lambda n: n['processing_time'])`. -/

lemma firstMin_spec : ∀ (l : List Bucket), l ≠ [] →
    (firstMin l).1 < l.length ∧
    (∀ (h : (firstMin l).1 < l.length),
      (l.get ⟨(firstMin l).1, h⟩).processing_time = (firstMin l).2) ∧
    (∀ k (hk : k < l.length), (firstMin l).2 ≤ (l.get ⟨k, hk⟩).processing_time) ∧
    (∀ k, k < (firstMin l).1 → ∀ (hk : k < l.length),
      (firstMin l).2 < (l.get ⟨k, hk⟩).processing_time) := by
  intro l
  induction l with
  | nil => intro h; exact absurd rfl h
  | cons b t ih =>
    intro _
    cases t with
    | nil =>
      refine ⟨by simp [firstMin], by intro h; simp [firstMin], ?_, ?_⟩
      · intro k hk
        have hk0 : k = 0 := by simp at hk; omega
        subst hk0
        simp [firstMin]
      · intro k hk
        simp [firstMin] at hk
    | cons c t' =>
      rcases ih (by simp) with ⟨ih1, ih2, ih3, ih4⟩
      by_cases hle : b.processing_time ≤ (firstMin (c :: t')).2
      · have hfm : firstMin (b :: c :: t') = (0, b.processing_time) := by
          simp [firstMin, hle]
        rw [hfm]
        refine ⟨by simp, by intro h; simp, ?_, ?_⟩
        · intro k hk
          cases k with
          | zero => simp
          | succ k =>
            simp only [List.get_cons_succ]
            exact le_trans hle (ih3 k (by simpa using hk))
        · intro k hk
          simp at hk
      · have hfm : firstMin (b :: c :: t') =
            ((firstMin (c :: t')).1 + 1, (firstMin (c :: t')).2) := by
          simp [firstMin, hle]
        have hbt : (firstMin (c :: t')).2 < b.processing_time := lt_of_not_le hle
        rw [hfm]
        refine ⟨by simpa using Nat.succ_lt_succ ih1, ?_, ?_, ?_⟩
        · intro h
          simpa using ih2 ih1
        · intro k hk
          cases k with
          | zero => simpa using le_of_lt hbt
          | succ k =>
            simp only [List.get_cons_succ]
            exact ih3 k (by simpa using hk)
        · intro k hklt hk
          cases k with
          | zero => simpa using hbt
          | succ k =>
            simp only [List.get_cons_succ]
            exact ih4 k (by simpa using hklt) (by simpa using hk)

/-- Claim C1: one pass of the greedy loop (lines 159-165) behaves
exactly as the spec's rule: the chosen bucket index lies in
`[1, node_count]`, its accumulated processing time is minimal among
buckets 1..node_count, every strictly earlier candidate (lower NodeId)
has strictly larger processing time (so ties go to the lowest NodeId),
and the step replaces exactly that bucket, adding the duration to its
total and the key to its item set.  `lptBuild` is by definition the
left fold of this step over the descending-sorted data. -/
theorem lptStep_greedy (nodes : List Bucket) (n : Nat) (hn : 1 ≤ n)
    (hlen : nodes.length = n + 1) (k : String) (d : ℚ) :
    (∀ data : List (String × ℚ),
      lptBuild n data = (sortedLptData data).foldl lptStep (initialNodes n)) ∧
    (1 ≤ chosenNode nodes ∧ chosenNode nodes ≤ n) ∧
    (∀ i, 1 ≤ i → i ≤ n →
      bucketTime nodes (chosenNode nodes) ≤ bucketTime nodes i) ∧
    (∀ i, 1 ≤ i → i < chosenNode nodes →
      bucketTime nodes (chosenNode nodes) < bucketTime nodes i) ∧
    lptStep nodes (k, d) =
      nodes.set (chosenNode nodes)
        ⟨bucketTime nodes (chosenNode nodes) + d,
         k :: bucketObjs nodes (chosenNode nodes)⟩ := by
  refine ⟨fun _ => rfl, ?_⟩
  have htlen : (nodes.drop 1).length = n := by simp [hlen]
  have htne : nodes.drop 1 ≠ [] := by
    intro h
    rw [h] at htlen
    simp at htlen
    omega
  rcases firstMin_spec (nodes.drop 1) htne with ⟨h1, h2, h3, h4⟩
  set j := (firstMin (nodes.drop 1)).1 with hj
  have hjn : j < n := htlen ▸ h1
  have hchosen : chosenNode nodes = 1 + j := rfl
  have tGet : ∀ i (hi : i < (nodes.drop 1).length),
      bucketTime nodes (1 + i) = ((nodes.drop 1).get ⟨i, hi⟩).processing_time := by
    intro i hi
    have hd : (nodes.drop 1)[i]? = nodes[1 + i]? := by rw [List.getElem?_drop]
    simp only [bucketTime, List.get?_eq_getElem?, ← hd,
      List.getElem?_eq_getElem hi, Option.getD_some, List.get_eq_getElem]
  have hjtime : bucketTime nodes (chosenNode nodes) = (firstMin (nodes.drop 1)).2 := by
    rw [hchosen, tGet j h1, h2 h1]
  refine ⟨⟨by omega, by omega⟩, ?_, ?_, ?_⟩
  · intro i hi1 hin
    have hi' : i - 1 < (nodes.drop 1).length := by omega
    have := tGet (i - 1) hi'
    rw [show 1 + (i - 1) = i from by omega] at this
    rw [hjtime, this]
    exact h3 (i - 1) hi'
  · intro i hi1 hij
    rw [hchosen] at hij
    have hi' : i - 1 < (nodes.drop 1).length := by omega
    have := tGet (i - 1) hi'
    rw [show 1 + (i - 1) = i from by omega] at this
    rw [hjtime, this]
    exact h4 (i - 1) (by omega) hi'
  · have hcl : chosenNode nodes < nodes.length := by rw [hchosen]; omega
    have hget : nodes.get? (chosenNode nodes) = some (nodes[chosenNode nodes]) := by
      rw [List.get?_eq_getElem?, List.getElem?_eq_getElem hcl]
    have hbt : bucketTime nodes (chosenNode nodes) =
        (nodes[chosenNode nodes]).processing_time := by
      simp [bucketTime, List.get?_eq_getElem?, List.getElem?_eq_getElem hcl]
    have hbo : bucketObjs nodes (chosenNode nodes) =
        (nodes[chosenNode nodes]).objects := by
      simp [bucketObjs, List.get?_eq_getElem?, List.getElem?_eq_getElem hcl]
    simp only [lptStep, hget, hbt, hbo]

/-- Concrete bucket list: the dummy node 0 plus two live buckets. -/
def greedyWitnessNodes : List Bucket := [emptyBucket, ⟨3, ["p"]⟩, ⟨1, ["q"]⟩]

/-- Witness for `lptStep_greedy` at a concrete bucket list. -/
theorem lptStep_greedy_witness :
    (∀ data : List (String × ℚ),
      lptBuild 2 data = (sortedLptData data).foldl lptStep (initialNodes 2)) ∧
    (1 ≤ chosenNode greedyWitnessNodes ∧ chosenNode greedyWitnessNodes ≤ 2) ∧
    (∀ i, 1 ≤ i → i ≤ 2 →
      bucketTime greedyWitnessNodes (chosenNode greedyWitnessNodes) ≤
        bucketTime greedyWitnessNodes i) ∧
    (∀ i, 1 ≤ i → i < chosenNode greedyWitnessNodes →
      bucketTime greedyWitnessNodes (chosenNode greedyWitnessNodes) <
        bucketTime greedyWitnessNodes i) ∧
    lptStep greedyWitnessNodes ("r", 5) =
      greedyWitnessNodes.set (chosenNode greedyWitnessNodes)
        ⟨bucketTime greedyWitnessNodes (chosenNode greedyWitnessNodes) + 5,
         "r" :: bucketObjs greedyWitnessNodes (chosenNode greedyWitnessNodes)⟩ :=
  lptStep_greedy greedyWitnessNodes 2 (by norm_num) rfl "r" 5

/-! Lemmas building up to the partition invariant of the LPT table. -/

lemma lptStep_length (nodes : List Bucket) (p : String × ℚ) :
    (lptStep nodes p).length = nodes.length := by
  unfold lptStep
  cases h : nodes.get? (chosenNode nodes) <;> simp

lemma chosenNode_bounds (nodes : List Bucket) (h2 : 2 ≤ nodes.length) :
    1 ≤ chosenNode nodes ∧ chosenNode nodes < nodes.length := by
  have htne : nodes.drop 1 ≠ [] := by
    intro h
    have := congrArg List.length h
    simp at this
    omega
  have hfm := (firstMin_spec (nodes.drop 1) htne).1
  simp only [List.length_drop] at hfm
  constructor
  · simp [chosenNode]
  · simp only [chosenNode]
    omega

lemma lptStep_head (nodes : List Bucket) (p : String × ℚ) (h2 : 2 ≤ nodes.length) :
    (lptStep nodes p).get? 0 = nodes.get? 0 := by
  obtain ⟨hj1, hjl⟩ := chosenNode_bounds nodes h2
  unfold lptStep
  cases h : nodes.get? (chosenNode nodes)
  · rfl
  · rw [List.get?_eq_getElem?, List.get?_eq_getElem?, List.getElem?_set_ne (by omega)]

lemma allObjects_lptStep (nodes : List Bucket) (p : String × ℚ) (h2 : 2 ≤ nodes.length) :
    (allObjects (lptStep nodes p)).Perm (p.1 :: allObjects nodes) := by
  obtain ⟨hj1, hjl⟩ := chosenNode_bounds nodes h2
  have hget : nodes.get? (chosenNode nodes) = some (nodes[chosenNode nodes]) := by
    rw [List.get?_eq_getElem?, List.getElem?_eq_getElem hjl]
  have hdecomp : nodes = nodes.take (chosenNode nodes) ++
      (nodes[chosenNode nodes]) :: nodes.drop (chosenNode nodes + 1) := by
    conv_lhs => rw [← List.take_append_drop (chosenNode nodes) nodes]
    rw [List.drop_eq_getElem_cons hjl]
  obtain ⟨k, d⟩ := p
  simp only [lptStep, hget]
  rw [List.set_eq_take_cons_drop _ hjl]
  conv_rhs => rw [hdecomp]
  simp only [allObjects, List.map_append, List.map_cons, List.flatten_append,
    List.flatten_cons, List.cons_append]
  refine List.Perm.trans List.perm_middle (List.Perm.of_eq ?_)
  simp

lemma allObjects_initialNodes (n : Nat) : allObjects (initialNodes n) = [] := by
  rw [List.eq_nil_iff_forall_not_mem]
  intro a ha
  simp only [allObjects, initialNodes] at ha
  rcases List.mem_flatten.mp ha with ⟨l, hl, hal⟩
  rcases List.mem_map.mp hl with ⟨b, hb, rfl⟩
  have hbe := List.eq_of_mem_replicate hb
  subst hbe
  simp [emptyBucket] at hal

lemma lptFold_spec (l : List (String × ℚ)) : ∀ (nodes : List Bucket),
    2 ≤ nodes.length →
    (l.foldl lptStep nodes).length = nodes.length ∧
    (allObjects (l.foldl lptStep nodes)).Perm (l.map Prod.fst ++ allObjects nodes) ∧
    (l.foldl lptStep nodes).get? 0 = nodes.get? 0 := by
  induction l with
  | nil => exact fun nodes _ => ⟨rfl, by simp, rfl⟩
  | cons p l ih =>
    intro nodes h2
    have hstep2 : 2 ≤ (lptStep nodes p).length := by
      rw [lptStep_length]
      exact h2
    obtain ⟨ihl, ihp, ihh⟩ := ih (lptStep nodes p) hstep2
    refine ⟨by rw [List.foldl_cons, ihl, lptStep_length], ?_, ?_⟩
    · rw [List.foldl_cons]
      refine ihp.trans ?_
      refine ((List.Perm.append_left (l.map Prod.fst)
        (allObjects_lptStep nodes p h2)).trans List.perm_middle).trans
        (List.Perm.of_eq ?_)
      simp
    · rw [List.foldl_cons, ihh, lptStep_head nodes p h2]

lemma lptBuild_spec (n : Nat) (hn : 1 ≤ n) (data : List (String × ℚ)) :
    (lptBuild n data).length = n + 1 ∧
    (allObjects (lptBuild n data)).Perm (data.map Prod.fst) ∧
    (lptBuild n data).get? 0 = some emptyBucket := by
  have h2 : 2 ≤ (initialNodes n).length := by
    simp only [initialNodes, List.length_replicate]
    omega
  obtain ⟨hl, hp, hh⟩ := lptFold_spec (sortedLptData data) (initialNodes n) h2
  refine ⟨by rw [lptBuild, hl]; simp [initialNodes], ?_, ?_⟩
  · refine hp.trans ?_
    rw [allObjects_initialNodes, List.append_nil]
    exact (sortedLptData_perm data).map Prod.fst
  · rw [lptBuild, hh]
    simp [initialNodes, List.replicate_succ]

/-- Claim C3: after the LPT build, the live buckets 1..n partition the
key set of the duration record: every key lands in some live bucket's
item set and in no others, and a key in a live bucket's item set comes
from the record.  The hypothesis `Nodup` reflects that `self.lpt_data`
is a dict, whose keys are distinct. -/
theorem lpt_partition (n : Nat) (hn : 1 ≤ n) (data : List (String × ℚ))
    (hnodup : (data.map Prod.fst).Nodup) :
    (∀ k, k ∈ data.map Prod.fst ↔
      ∃ i, 1 ≤ i ∧ i ≤ n ∧ k ∈ bucketObjs (lptBuild n data) i) ∧
    (∀ i j, 1 ≤ i → i ≤ n → 1 ≤ j → j ≤ n → i ≠ j → ∀ k,
      k ∈ bucketObjs (lptBuild n data) i → k ∉ bucketObjs (lptBuild n data) j) := by
  obtain ⟨hlen, hperm, hhead⟩ := lptBuild_spec n hn data
  have hmem : ∀ k, k ∈ allObjects (lptBuild n data) ↔ k ∈ data.map Prod.fst :=
    fun k => hperm.mem_iff
  have hnd : (allObjects (lptBuild n data)).Nodup := hperm.nodup_iff.mpr hnodup
  unfold allObjects at hnd
  obtain ⟨hbuckets_nodup, hdisj⟩ := List.nodup_flatten.mp hnd
  have hbo : ∀ i (hi : i < (lptBuild n data).length),
      bucketObjs (lptBuild n data) i = ((lptBuild n data)[i]).objects := by
    intro i hi
    simp [bucketObjs, List.get?_eq_getElem?, List.getElem?_eq_getElem hi]
  have hhead0 : ∀ (h0 : 0 < (lptBuild n data).length),
      (lptBuild n data)[0] = emptyBucket := by
    intro h0
    have := hhead
    rw [List.get?_eq_getElem?, List.getElem?_eq_getElem h0] at this
    exact Option.some_injective _ this
  constructor
  · intro k
    constructor
    · intro hk
      rcases List.mem_flatten.mp ((hmem k).mpr hk) with ⟨l, hl, hkl⟩
      rcases List.mem_map.mp hl with ⟨b, hb, rfl⟩
      rcases List.mem_iff_get.mp hb with ⟨⟨i, hi⟩, hgi⟩
      have hi' : i < (lptBuild n data).length := hi
      refine ⟨i, ?_, ?_, ?_⟩
      · rcases Nat.eq_zero_or_pos i with rfl | h1
        · exfalso
          rw [List.get_eq_getElem] at hgi
          rw [hhead0 hi'] at hgi
          rw [← hgi] at hkl
          simp [emptyBucket] at hkl
        · exact h1
      · omega
      · rw [hbo i hi', ← List.get_eq_getElem _ ⟨i, hi⟩, hgi]
        exact hkl
    · rintro ⟨i, hi1, hin, hk⟩
      have hi' : i < (lptBuild n data).length := by omega
      rw [hbo i hi'] at hk
      refine (hmem k).mp (List.mem_flatten.mpr ⟨((lptBuild n data)[i]).objects, ?_, hk⟩)
      exact List.mem_map.mpr ⟨(lptBuild n data)[i], List.getElem_mem hi', rfl⟩
  · intro i j hi1 hin hj1 hjn hij k hki hkj
    have hi' : i < (lptBuild n data).length := by omega
    have hj' : j < (lptBuild n data).length := by omega
    have hmaplen : i < ((lptBuild n data).map Bucket.objects).length ∧
        j < ((lptBuild n data).map Bucket.objects).length := by
      constructor <;> simpa using by omega
    have hpw := List.pairwise_iff_getElem.mp hdisj
    rw [hbo i hi'] at hki
    rw [hbo j hj'] at hkj
    rcases Nat.lt_or_ge i j with hlt | hge
    · have hd := hpw i j hmaplen.1 hmaplen.2 hlt
      rw [List.getElem_map, List.getElem_map] at hd
      exact hd hki hkj
    · have hlt' : j < i := by omega
      have hd := hpw j i hmaplen.2 hmaplen.1 hlt'
      rw [List.getElem_map, List.getElem_map] at hd
      exact hd hkj hki

/-- The duration record of the spec's LPT scenario:
`{a:10, b:6, c:6, d:2}` in its JSON iteration order. -/
def c5data : List (String × ℚ) := [("a", 10), ("b", 6), ("c", 6), ("d", 2)]

/-- Witness for `lpt_partition` at the concrete scenario record. -/
theorem lpt_partition_witness :
    (∀ k, k ∈ c5data.map Prod.fst ↔
      ∃ i, 1 ≤ i ∧ i ≤ 2 ∧ k ∈ bucketObjs (lptBuild 2 c5data) i) ∧
    (∀ i j, 1 ≤ i → i ≤ 2 → 1 ≤ j → j ≤ 2 → i ≠ j → ∀ k,
      k ∈ bucketObjs (lptBuild 2 c5data) i → k ∉ bucketObjs (lptBuild 2 c5data) j) :=
  lpt_partition 2 (by norm_num) c5data (by decide)

/-- Claim C5, counterexample: on DurationRecord `{a:10, b:6, c:6, d:2}`
with 2 nodes the greedy rule yields bucket totals 12 and 12, not the
claimed `{12, 16}`: after a→1 (10) and b→2 (6), bucket 2 is strictly
smaller, so c→2 (12), then d→1 (12). -/
theorem lpt_scenario_totals :
    bucketTime (lptBuild 2 c5data) 1 = 12 ∧
    bucketTime (lptBuild 2 c5data) 2 = 12 ∧
    ¬ (bucketTime (lptBuild 2 c5data) 1 = 12 ∧ bucketTime (lptBuild 2 c5data) 2 = 16) ∧
    ¬ (bucketTime (lptBuild 2 c5data) 1 = 16 ∧ bucketTime (lptBuild 2 c5data) 2 = 12) := by
  norm_num [c5data, lptBuild, sortedLptData, insertByDuration, lptStep, chosenNode,
    firstMin, initialNodes, bucketTime, emptyBucket]

/-- Claim C5, amended: the scenario's final bucket totals are 12 and 12,
with item sets `{a, d}` and `{b, c}` partitioning `{a, b, c, d}`. -/
theorem lpt_scenario_amended :
    bucketTime (lptBuild 2 c5data) 1 = 12 ∧
    bucketTime (lptBuild 2 c5data) 2 = 12 ∧
    bucketObjs (lptBuild 2 c5data) 1 = ["d", "a"] ∧
    bucketObjs (lptBuild 2 c5data) 2 = ["c", "b"] := by
  norm_num [c5data, lptBuild, sortedLptData, insertByDuration, lptStep, chosenNode,
    firstMin, initialNodes, bucketTime, bucketObjs, emptyBucket]

/-! Theorems about the membership resolver. -/

/-- Claim C7: with `hash_by_class` set (`PerClass`), `wantMethod`
defers (`None`) for every method; without it (`PerItem`, the default),
`wantClass` defers for every class. -/
theorem granularity_split (st : PluginState) (m : MethodItem) (c : ClassItem) :
    (st.hash_by_class = true → wantMethod st m = none) ∧
    (st.hash_by_class = false → wantClass st c = none) := by
  constructor <;> intro h <;> simp [wantMethod, wantClass, h]

/-- Ring mapping every key to node 1, for concrete witnesses. -/
def witnessRing : String → Nat := fun _ => 1

/-- Concrete plugin state: node 1, hash-by-class, hash-ring algorithm. -/
def perClassState : PluginState := ⟨1, true, 0, [], [], witnessRing⟩

/-- Concrete plugin state: node 1, per-item, hash-ring algorithm. -/
def perItemState : PluginState := ⟨1, false, 0, [], [], witnessRing⟩

/-- Concrete plugin state: node 1, per-item, LPT algorithm knowing key `k1`. -/
def lptPerItemState : PluginState := ⟨1, false, 1, ["k1"], ["k1"], witnessRing⟩

/-- A concrete method item. -/
def witnessMethod : MethodItem := ⟨"m", "C", "t"⟩

/-- A concrete class item. -/
def witnessClass : ClassItem := ⟨"m", "C", "class m.C"⟩

/-- A concrete function item. -/
def witnessFunction : FunctionItem := ⟨"m", "f"⟩

/-- Witness for `granularity_split` at concrete states and items. -/
theorem granularity_split_witness :
    wantMethod perClassState witnessMethod = none ∧
    wantClass perItemState witnessClass = none :=
  ⟨(granularity_split perClassState witnessMethod witnessClass).1 rfl,
   (granularity_split perItemState witnessMethod witnessClass).2 rfl⟩

/-- Claim C4: under the LPT algorithm, a key absent from the duration
data is resolved through the hash ring: `wantMethod` (per-item mode)
and `wantClass` (per-class mode) defer — letting the item run here —
exactly when the ring maps the consulted key to this node, exclude
exactly when it maps elsewhere, and each agrees with the pure hash-ring
configuration of the same state (same ring, same node count). -/
theorem lpt_fallback_ring (st : PluginState) (m : MethodItem) (c : ClassItem)
    (halg : st.algorithm = ALGORITHM_LEAST_PROCESSING_TIME)
    (hm : methodFullName m ∉ st.lpt_data_keys)
    (hc : namespacedClass c ∉ st.lpt_data_keys) :
    (st.hash_by_class = false →
      (wantMethod st m = none ↔ st.ring (methodFullName m) = st.node_id) ∧
      (wantMethod st m = some false ↔ st.ring (methodFullName m) ≠ st.node_id) ∧
      wantMethod st m = wantMethod (st.withAlgorithm ALGORITHM_HASH_RING) m) ∧
    (st.hash_by_class = true →
      (wantClass st c = none ↔ st.ring c.str_repr = st.node_id) ∧
      (wantClass st c = some false ↔ st.ring c.str_repr ≠ st.node_id) ∧
      wantClass st c = wantClass (st.withAlgorithm ALGORITHM_HASH_RING) c) := by
  constructor
  · intro hpc
    have hkey : m.module ++ "." ++ methodCall m = methodFullName m := rfl
    by_cases hr : st.ring (methodFullName m) = st.node_id <;>
      simp [wantMethod, validateName, PluginState.withAlgorithm, halg, hpc, hm,
        hkey, hr, ALGORITHM_HASH_RING, ALGORITHM_LEAST_PROCESSING_TIME]
  · intro hpc
    by_cases hr : st.ring c.str_repr = st.node_id <;>
      simp [wantClass, PluginState.withAlgorithm, halg, hpc, hc, hr,
        ALGORITHM_HASH_RING, ALGORITHM_LEAST_PROCESSING_TIME]

/-- Witness for `lpt_fallback_ring` at a concrete state and items whose
keys are absent from the duration data. -/
theorem lpt_fallback_ring_witness :
    (lptPerItemState.hash_by_class = false →
      (wantMethod lptPerItemState witnessMethod = none ↔
        lptPerItemState.ring (methodFullName witnessMethod) = lptPerItemState.node_id) ∧
      (wantMethod lptPerItemState witnessMethod = some false ↔
        lptPerItemState.ring (methodFullName witnessMethod) ≠ lptPerItemState.node_id) ∧
      wantMethod lptPerItemState witnessMethod =
        wantMethod (lptPerItemState.withAlgorithm ALGORITHM_HASH_RING) witnessMethod) ∧
    (lptPerItemState.hash_by_class = true →
      (wantClass lptPerItemState witnessClass = none ↔
        lptPerItemState.ring witnessClass.str_repr = lptPerItemState.node_id) ∧
      (wantClass lptPerItemState witnessClass = some false ↔
        lptPerItemState.ring witnessClass.str_repr ≠ lptPerItemState.node_id) ∧
      wantClass lptPerItemState witnessClass =
        wantClass (lptPerItemState.withAlgorithm ALGORITHM_HASH_RING) witnessClass) :=
  lpt_fallback_ring lptPerItemState witnessMethod witnessClass rfl
    (by decide) (by decide)

/-- Claim C10: under the hash-ring algorithm no callback ever returns
the explicit include `some true`: each returns `some false` (exclude)
exactly when the ring maps the consulted key to another node and `none`
(defer) otherwise — inclusion on the owning node is expressed only by
deferring — whereas an LPT lookup hit returns the explicit `some true`
when the key sits in this node's bucket. -/
theorem hash_ring_no_explicit_include (st : PluginState) (f : FunctionItem)
    (m : MethodItem) (c : ClassItem)
    (halg : st.algorithm = ALGORITHM_HASH_RING) :
    wantFunction st f ≠ some true ∧
    wantMethod st m ≠ some true ∧
    wantClass st c ≠ some true ∧
    (wantFunction st f = some false ↔
      st.ring (f.module ++ "." ++ f.name) ≠ st.node_id) ∧
    (wantFunction st f = none ↔
      st.ring (f.module ++ "." ++ f.name) = st.node_id) ∧
    (st.hash_by_class = false →
      (wantMethod st m = some false ↔ st.ring (methodFullName m) ≠ st.node_id) ∧
      (wantMethod st m = none ↔ st.ring (methodFullName m) = st.node_id)) ∧
    (st.hash_by_class = true →
      (wantClass st c = some false ↔ st.ring c.str_repr ≠ st.node_id) ∧
      (wantClass st c = none ↔ st.ring c.str_repr = st.node_id)) ∧
    (∀ st' : PluginState, st'.algorithm = ALGORITHM_LEAST_PROCESSING_TIME →
      st'.hash_by_class = false → methodFullName m ∈ st'.lpt_data_keys →
      methodFullName m ∈ st'.lpt_node_objects → wantMethod st' m = some true) := by
  have hwf : wantFunction st f =
      (if st.ring (f.module ++ "." ++ f.name) ≠ st.node_id then some false else none) := by
    simp [wantFunction, validateName]
  have hwm : st.hash_by_class = false → wantMethod st m =
      (if st.ring (methodFullName m) ≠ st.node_id then some false else none) := by
    intro hb
    have hkey : m.module ++ "." ++ methodCall m = methodFullName m := rfl
    simp [wantMethod, validateName, halg, hb, hkey,
      ALGORITHM_HASH_RING, ALGORITHM_LEAST_PROCESSING_TIME]
  have hwc : st.hash_by_class = true → wantClass st c =
      (if st.ring c.str_repr ≠ st.node_id then some false else none) := by
    intro hb
    simp [wantClass, halg, hb, ALGORITHM_HASH_RING]
  refine ⟨?_, ?_, ?_, ?_, ?_, ?_, ?_, ?_⟩
  · rw [hwf]
    split <;> simp
  · cases hb : st.hash_by_class
    · rw [hwm hb]
      split <;> simp
    · simp [wantMethod, hb]
  · cases hb : st.hash_by_class
    · simp [wantClass, hb]
    · rw [hwc hb]
      split <;> simp
  · rw [hwf]
    split <;> simp_all
  · rw [hwf]
    split <;> simp_all
  · intro hb
    rw [hwm hb]
    constructor <;> · constructor <;> · split <;> simp_all
  · intro hb
    rw [hwc hb]
    constructor <;> · constructor <;> · split <;> simp_all
  · intro st' halg' hb' hkeys hobjs
    simp [wantMethod, halg', hb', hkeys, hobjs]

/-- Witness for `hash_ring_no_explicit_include` at a concrete hash-ring
state and concrete items. -/
theorem hash_ring_no_explicit_include_witness :
    wantFunction perItemState witnessFunction ≠ some true ∧
    wantMethod perItemState witnessMethod ≠ some true ∧
    wantClass perItemState witnessClass ≠ some true ∧
    (wantFunction perItemState witnessFunction = some false ↔
      perItemState.ring (witnessFunction.module ++ "." ++ witnessFunction.name) ≠
        perItemState.node_id) ∧
    (wantFunction perItemState witnessFunction = none ↔
      perItemState.ring (witnessFunction.module ++ "." ++ witnessFunction.name) =
        perItemState.node_id) ∧
    (perItemState.hash_by_class = false →
      (wantMethod perItemState witnessMethod = some false ↔
        perItemState.ring (methodFullName witnessMethod) ≠ perItemState.node_id) ∧
      (wantMethod perItemState witnessMethod = none ↔
        perItemState.ring (methodFullName witnessMethod) = perItemState.node_id)) ∧
    (perItemState.hash_by_class = true →
      (wantClass perItemState witnessClass = some false ↔
        perItemState.ring witnessClass.str_repr ≠ perItemState.node_id) ∧
      (wantClass perItemState witnessClass = none ↔
        perItemState.ring witnessClass.str_repr = perItemState.node_id)) ∧
    (∀ st' : PluginState, st'.algorithm = ALGORITHM_LEAST_PROCESSING_TIME →
      st'.hash_by_class = false → methodFullName witnessMethod ∈ st'.lpt_data_keys →
      methodFullName witnessMethod ∈ st'.lpt_node_objects →
      wantMethod st' witnessMethod = some true) :=
  hash_ring_no_explicit_include perItemState witnessFunction witnessMethod
    witnessClass rfl

/-! Theorems about configuration and validation. -/

/-- Claim C6: whenever `configure` returns, the plugin is enabled
exactly when validation passed, the disable flag is unset and the node
count exceeds 1; the disable flag forces `enabled = false` regardless
of the node count. -/
theorem configure_enabled_iff (o : RawOptions) (r : ConfigResult)
    (h : configure o = Except.ok r) :
    (r.enabled = true ↔
      optionsAreValid o = true ∧ o.distributed_disabled = false ∧
        1 < o.distributed_nodes.getD 1) ∧
    (o.distributed_disabled = true → r.enabled = false) := by
  unfold configure at h
  by_cases hv : optionsAreValid o = false
  · rw [if_pos hv] at h
    injection h with h'
    subst h'
    simp [hv]
  · have hv' : optionsAreValid o = true := by
      revert hv
      cases optionsAreValid o <;> simp
    rw [if_neg hv] at h
    by_cases hd : o.distributed_disabled
    · rw [if_pos hd] at h
      injection h with h'
      subst h'
      simp [hd]
    · rw [if_neg hd] at h
      have hd' : o.distributed_disabled = false := by
        revert hd
        cases o.distributed_disabled <;> simp
      by_cases ha : o.algorithm = ALGORITHM_LEAST_PROCESSING_TIME
      · rw [if_pos ha] at h
        split at h
        · exact absurd h (by simp)
        · exact absurd h (by simp)
        · exact absurd h (by simp)
        · split at h
          · exact absurd h (by simp)
          · injection h with h'
            subst h'
            simp [hv', hd']
      · rw [if_neg ha] at h
        injection h with h'
        subst h'
        simp [hv', hd']

/-- Witness for `configure_enabled_iff`: three valid nodes, this node 2,
no disable flag, hash-ring algorithm. -/
theorem configure_enabled_iff_witness :
    ((ConfigResult.mk true none).enabled = true ↔
      optionsAreValid ⟨some 3, some 2, false, false, 0, none⟩ = true ∧
        (⟨some 3, some 2, false, false, 0, none⟩ : RawOptions).distributed_disabled = false ∧
        1 < (⟨some 3, some 2, false, false, 0, none⟩ : RawOptions).distributed_nodes.getD 1) ∧
    ((⟨some 3, some 2, false, false, 0, none⟩ : RawOptions).distributed_disabled = true →
      (ConfigResult.mk true none).enabled = false) :=
  configure_enabled_iff ⟨some 3, some 2, false, false, 0, none⟩ ⟨true, none⟩ rfl

/-- Claim C8: validation fails exactly when a raw value does not parse
as an integer or the node id violates `1 ≤ node_id ≤ node_count`, and
any validation failure makes `configure` return a disabled
configuration normally (no exception). -/
theorem options_validation (o : RawOptions) :
    (optionsAreValid o = false ↔
      o.distributed_nodes = none ∨ o.distributed_node_number = none ∨
        ∃ nc nid, o.distributed_nodes = some nc ∧
          o.distributed_node_number = some nid ∧ (nid < 1 ∨ nc < nid)) ∧
    (optionsAreValid o = false → configure o = Except.ok ⟨false, none⟩) := by
  constructor
  · rcases hnc : o.distributed_nodes with _ | nc
    · simp [optionsAreValid, hnc]
    · rcases hnid : o.distributed_node_number with _ | nid
      · simp [optionsAreValid, hnc, hnid]
      · simp only [optionsAreValid, hnc, hnid]
        split_ifs with h1 h2 <;> simp [hnc, hnid] <;> omega
  · intro h
    simp [configure, h]

/-- Witness for `options_validation` at the out-of-range node id 0. -/
theorem options_validation_witness :
    configure ⟨some 4, some 0, false, false, 0, none⟩ = Except.ok ⟨false, none⟩ :=
  (options_validation ⟨some 4, some 0, false, false, 0, none⟩).2 rfl

/-- Claim C9, counterexample: the disable-flag early return (lines
123-125) precedes the LPT block, so with the disable flag set and an
unreadable duration-data file, `configure` returns a configuration
normally instead of propagating an error. -/
theorem lpt_data_error_swallowed_when_disabled :
    configure ⟨some 2, some 1, true, false, ALGORITHM_LEAST_PROCESSING_TIME,
      some DataSource.unreadable⟩ = Except.ok ⟨false, none⟩ := rfl

lemma loadDurations_error_of_missing (entries : List (String × Option ℚ))
    (h : ∃ k, (k, (none : Option ℚ)) ∈ entries) :
    loadDurations entries = Except.error ConfigError.keyError := by
  induction entries with
  | nil => simp at h
  | cons e rest ih =>
    obtain ⟨k, hk⟩ := h
    rcases List.mem_cons.mp hk with he | hmem
    · rw [← he]
      rfl
    · obtain ⟨k2, d2⟩ := e
      rcases d2 with _ | d
      · rfl
      · simp [loadDurations, ih ⟨k, hmem⟩, Except.map]

/-- Claim C9, amended: once validation passes and the disable flag is
unset, every duration-data failure under the LPT algorithm aborts
`configure` with an error — missing source path (`assert`), unreadable
file (`IOError`), unparseable content (`ValueError`), and an entry
without a `duration` field (`KeyError`) — and whenever `configure`
does return, the assignment table was built from the complete duration
data, never from partial or default data. -/
theorem lpt_data_errors_fatal (o : RawOptions)
    (hv : optionsAreValid o = true) (hd : o.distributed_disabled = false)
    (halg : o.algorithm = ALGORITHM_LEAST_PROCESSING_TIME) :
    (o.lpt_source = none → configure o = Except.error ConfigError.assertionError) ∧
    (o.lpt_source = some DataSource.unreadable →
      configure o = Except.error ConfigError.ioError) ∧
    (o.lpt_source = some DataSource.unparseable →
      configure o = Except.error ConfigError.valueError) ∧
    (∀ entries, o.lpt_source = some (DataSource.parsed entries) →
      ((∃ k, (k, (none : Option ℚ)) ∈ entries) →
        configure o = Except.error ConfigError.keyError) ∧
      (∀ r, configure o = Except.ok r → ∃ data,
        loadDurations entries = Except.ok data ∧
          r.lpt_nodes = some (lptBuild (o.distributed_nodes.getD 1).toNat data))) := by
  refine ⟨?_, ?_, ?_, ?_⟩
  · intro hs
    simp [configure, hv, hd, halg, hs]
  · intro hs
    simp [configure, hv, hd, halg, hs]
  · intro hs
    simp [configure, hv, hd, halg, hs]
  · intro entries hs
    constructor
    · intro hmiss
      simp [configure, hv, hd, halg, hs, loadDurations_error_of_missing entries hmiss]
    · intro r hr
      simp only [configure, hv, hd, halg, hs] at hr
      rcases hld : loadDurations entries with e | data <;>
        simp only [hld, Bool.true_eq_false, if_false, if_neg] at hr
      · split at hr <;> simp_all
      · split at hr <;> simp_all
        rw [← hr]

/-- Witness for `lpt_data_errors_fatal`: valid options, no disable
flag, LPT algorithm, unreadable duration-data file. -/
theorem lpt_data_errors_fatal_witness :
    ((⟨some 2, some 1, false, false, 1, some DataSource.unreadable⟩ : RawOptions).lpt_source =
        none →
      configure ⟨some 2, some 1, false, false, 1, some DataSource.unreadable⟩ =
        Except.error ConfigError.assertionError) ∧
    ((⟨some 2, some 1, false, false, 1, some DataSource.unreadable⟩ : RawOptions).lpt_source =
        some DataSource.unreadable →
      configure ⟨some 2, some 1, false, false, 1, some DataSource.unreadable⟩ =
        Except.error ConfigError.ioError) ∧
    ((⟨some 2, some 1, false, false, 1, some DataSource.unreadable⟩ : RawOptions).lpt_source =
        some DataSource.unparseable →
      configure ⟨some 2, some 1, false, false, 1, some DataSource.unreadable⟩ =
        Except.error ConfigError.valueError) ∧
    (∀ entries,
      (⟨some 2, some 1, false, false, 1, some DataSource.unreadable⟩ : RawOptions).lpt_source =
        some (DataSource.parsed entries) →
      ((∃ k, (k, (none : Option ℚ)) ∈ entries) →
        configure ⟨some 2, some 1, false, false, 1, some DataSource.unreadable⟩ =
          Except.error ConfigError.keyError) ∧
      (∀ r, configure ⟨some 2, some 1, false, false, 1, some DataSource.unreadable⟩ =
          Except.ok r → ∃ data,
        loadDurations entries = Except.ok data ∧
          r.lpt_nodes = some (lptBuild ((⟨some 2, some 1, false, false, 1,
            some DataSource.unreadable⟩ : RawOptions).distributed_nodes.getD 1).toNat data))) :=
  lpt_data_errors_fatal ⟨some 2, some 1, false, false, 1, some DataSource.unreadable⟩
    rfl rfl rfl

end DistributedNose
